import Mathlib

/-!
# Shallow embedding of the `nbtx` NBT serializer (`src/ser.rs`)

The serializer walks a serde value and writes NBT bytes for one of three
wire variants.  We model the serde data model by an inductive `Value`,
the byte sink by an accumulated `List Nat` of bytes (each < 256 on the
wire), and the serializer state (`is_initial`, `len`) by `SerState`.
Rust strings (`&str`) are represented by their UTF-8 byte sequences
(`List Nat`); `f32`/`f64` values are represented by their IEEE-754 bit
patterns (`Nat`), since `byteorder` serializes exactly those bits.

A computation that writes bytes and may fail is a `SerResult α`:
on success it yields the written bytes and a result, on failure the
bytes written before the failure together with the error (the Rust sink
keeps partially written bytes when an error is returned mid-stream).
-/

namespace Nbtx

/-- The three wire variants (`Variant` in the crate root, matched on via
`E::AS_ENUM` throughout `ser.rs`). -/
inductive Variant where
  | BigEndian
  | LittleEndian
  | NetworkEndian
deriving DecidableEq, Repr

/-- Modelled from the spec: the error type `NbtError` is declared in the
crate root, which is not under `src/`; `ser.rs` only constructs its
`Unsupported` variant (the spec's `UnsupportedShape`), carrying a message. -/
inductive NbtError where
  | Unsupported (msg : String)
deriving DecidableEq, Repr

/-- Modelled from the spec: the tag vocabulary `FieldType` is declared in the
crate root, which is not under `src/`.  The spec fixes the byte codes:
`End(0) Byte(1) Short(2) Int(3) Long(4) Float(5) Double(6) ByteArray(7)
String(8) List(9) Compound(10)`. -/
inductive FieldType where
  | End
  | Byte
  | Short
  | Int
  | Long
  | Float
  | Double
  | ByteArray
  | String
  | List
  | Compound
deriving DecidableEq, Repr

/-- The `FieldType as u8` cast: the spec's numeric tag codes. -/
def FieldType.toByte : FieldType → Nat
  | .End => 0
  | .Byte => 1
  | .Short => 2
  | .Int => 3
  | .Long => 4
  | .Float => 5
  | .Double => 6
  | .ByteArray => 7
  | .String => 8
  | .List => 9
  | .Compound => 10

/-- The serde data model shapes reaching `ser.rs`.  Strings and names are
UTF-8 byte lists; floats are bit patterns; `vSeq` is a sequence with a
known length (serde's `serialize_seq(Some(len))`, with `len` the number of
elements), `vSeqNoLen` one with unknown length (`serialize_seq(None)`). -/
inductive Value where
  | vBool (b : Bool)
  | vI8 (v : Int)
  | vI16 (v : Int)
  | vI32 (v : Int)
  | vI64 (v : Int)
  | vF32 (bits : Nat)
  | vF64 (bits : Nat)
  | vStr (s : List Nat)
  | vBytes (b : List Nat)
  | vChar (c : Nat)
  | vU8 (v : Nat)
  | vU16 (v : Nat)
  | vU32 (v : Nat)
  | vU64 (v : Nat)
  | vI128 (v : Int)
  | vNone
  | vSome (w : Value)
  | vUnit
  | vUnitStruct (name : List Nat)
  | vUnitVariant (name variant : List Nat)
  | vNewtypeStruct (name : List Nat) (w : Value)
  | vNewtypeVariant (name variant : List Nat) (w : Value)
  | vSeq (xs : List Value)
  | vSeqNoLen (xs : List Value)
  | vTuple (xs : List Value)
  | vTupleStruct (name : List Nat) (xs : List Value)
  | vTupleVariant (name variant : List Nat) (xs : List Value)
  | vStructVariant (name variant : List Nat) (fs : List (List Nat × Value))
  | vMap (es : List (Value × Value))
  | vStruct (name : List Nat) (fs : List (List Nat × Value))

/-- The mutable serializer state: `is_initial` (whether the root compound
header is still pending) and `len` (declared length of the sequence
awaiting its first element). -/
structure SerState where
  is_initial : Bool
  len : Nat
deriving DecidableEq, Repr

/-- A byte-writing computation: on success the written bytes and a value,
on failure the bytes written before failing and the error. -/
abbrev SerResult (α : Type) := Except (List Nat × NbtError) (List Nat × α)

/-- Write bytes and succeed. -/
def wOk {α : Type} (b : List Nat) (a : α) : SerResult α := .ok (b, a)

/-- Fail with an `Unsupported` error, having written nothing. -/
def wErr {α : Type} (msg : String) : SerResult α := .error ([], .Unsupported msg)

/-- Sequencing: bytes written by the first computation stay in the sink
even when the continuation fails. -/
def SerResult.andThen {α β : Type} (r : SerResult α) (f : α → SerResult β) :
    SerResult β :=
  match r with
  | .error e => .error e
  | .ok (b, a) =>
    match f a with
    | .error (b2, e) => .error (b ++ b2, e)
    | .ok (b2, c) => .ok (b ++ b2, c)

/-- `w` little-endian bytes of `n` (the truncation to `w` bytes is implicit
in taking `% 256` at each position, as in `byteorder`). -/
def leBytes : Nat → Nat → List Nat
  | 0, _ => []
  | w + 1, n => n % 256 :: leBytes w (n / 256)

/-- `w` big-endian bytes of `n`. -/
def beBytes (w n : Nat) : List Nat := (leBytes w n).reverse

/-- Two's-complement bit pattern of an integer in `w`-bit representation
(`Int.emod` is Euclidean, so the result is in `[0, 2^w)`). -/
def toUnsigned (w : Nat) (v : Int) : Nat := (v % (2 ^ w : Nat)).toNat

/-- The `as i32` cast on a `usize` length: keep the low 32 bits,
reinterpreted as a signed 32-bit integer. -/
def usizeAsI32 (n : Nat) : Int :=
  if n % 2 ^ 32 < 2 ^ 31 then (n % 2 ^ 32 : Nat) else (n % 2 ^ 32 : Nat) - 2 ^ 32

/-- Unsigned LEB128 (`varint_rs` `write_uXX_varint`): 7 payload bits per
byte, continuation bit `0x80`. -/
def uvarint (n : Nat) : List Nat :=
  if n < 128 then [n] else (n % 128 + 128) :: uvarint (n / 128)
decreasing_by exact Nat.div_lt_self (by omega) (by omega)

/-- ZigZag mapping used by `varint_rs` for signed varints:
`0 → 0, -1 → 1, 1 → 2, -2 → 3, …`. -/
def zigzag (v : Int) : Nat :=
  if 0 ≤ v then (2 * v).toNat else (-2 * v - 1).toNat

/-- `write_i32_varint` / `write_i64_varint`: ZigZag then unsigned LEB128. -/
def ivarint (v : Int) : List Nat := uvarint (zigzag v)

/-- String-length field (`serialize_str` and the struct-field name write):
`len as u16` fixed-width for the two fixed variants, `len as u32` unsigned
varint for the network variant. -/
def strLenBytes (V : Variant) (n : Nat) : List Nat :=
  match V with
  | .BigEndian => beBytes 2 (n % 2 ^ 16)
  | .LittleEndian => leBytes 2 (n % 2 ^ 16)
  | .NetworkEndian => uvarint (n % 2 ^ 32)

/-- Count field for byte blobs and sequences: `len as i32`, written
fixed-width for the fixed variants and as a signed varint for the network
variant. -/
def countBytes (V : Variant) (n : Nat) : List Nat :=
  match V with
  | .BigEndian => beBytes 4 (toUnsigned 32 (usizeAsI32 n))
  | .LittleEndian => leBytes 4 (toUnsigned 32 (usizeAsI32 n))
  | .NetworkEndian => ivarint (usizeAsI32 n)

/-- Fixed or varint encoding of an `i32` value (`serialize_i32`). -/
def i32Bytes (V : Variant) (v : Int) : List Nat :=
  match V with
  | .BigEndian => beBytes 4 (toUnsigned 32 v)
  | .LittleEndian => leBytes 4 (toUnsigned 32 v)
  | .NetworkEndian => ivarint v

/-- Fixed or varint encoding of an `i64` value (`serialize_i64`). -/
def i64Bytes (V : Variant) (v : Int) : List Nat :=
  match V with
  | .BigEndian => beBytes 8 (toUnsigned 64 v)
  | .LittleEndian => leBytes 8 (toUnsigned 64 v)
  | .NetworkEndian => ivarint v

/-- The probe encoder (`FieldTypeSerializer`): writes at most the value's
tag byte and reports whether the caller should skip the value (`true` only
for an absent optional).  Identical for all three variants.  For present
optionals it recurses into the wrapped value; for sequences, tuples, maps
and structs the serde driver's per-element calls are no-ops, so only the
`List`/`Compound` tag is written. -/
def fieldTypeValue : Value → SerResult Bool
  | .vBool _ => wOk [FieldType.Byte.toByte] false
  | .vI8 _ => wOk [FieldType.Byte.toByte] false
  | .vI16 _ => wOk [FieldType.Short.toByte] false
  | .vI32 _ => wOk [FieldType.Int.toByte] false
  | .vI64 _ => wOk [FieldType.Long.toByte] false
  | .vF32 _ => wOk [FieldType.Float.toByte] false
  | .vF64 _ => wOk [FieldType.Double.toByte] false
  | .vStr _ => wOk [FieldType.String.toByte] false
  | .vBytes _ => wOk [FieldType.ByteArray.toByte] false
  | .vChar _ => wErr "Serialization of `char` is not supported"
  | .vU8 _ => wErr "Serialization of `u8` is not supported"
  | .vU16 _ => wErr "Serialization of `u16` is not supported"
  | .vU32 _ => wErr "Serialization of `u32` is not supported"
  | .vU64 _ => wErr "Serialization of `u64` is not supported"
  | .vI128 _ => wErr "Serialization of `i128` is not supported"
  | .vNone => wOk [] true
  | .vSome w => (fieldTypeValue w).andThen fun _ => wOk [] false
  | .vUnit => wErr "Serializing () is not supported"
  | .vUnitStruct _ => wErr "Serializing unit structs is not supported"
  | .vUnitVariant _ _ => wErr "Serializing unit variants is not supported"
  | .vNewtypeStruct _ _ => wErr "Serializing newtype structs is not supported"
  | .vNewtypeVariant _ _ _ => wErr "Serializing newtype variants is not supported"
  | .vSeq _ => wOk [FieldType.List.toByte] false
  | .vSeqNoLen _ => wOk [FieldType.List.toByte] false
  | .vTuple _ => wOk [FieldType.List.toByte] false
  | .vTupleStruct _ _ => wErr "Serializing tuple structs is not supported"
  | .vTupleVariant _ _ _ => wErr "Serializing tuple variants is not supported"
  | .vStructVariant _ _ _ => wErr "Serializing struct variants is not supported"
  | .vMap _ => wOk [FieldType.Compound.toByte] false
  | .vStruct _ _ => wOk [FieldType.Compound.toByte] false

mutual

/-- The primary encoder (`impl ser::Serializer for &mut Serializer`),
driven over a `Value` the way serde's `Serialize` impls drive it: one case
per `serialize_*` method, with container protocols delegated to the loops
below and the compound `End` byte written at `end()`. -/
def serializeValue (V : Variant) (st : SerState) : Value → SerResult SerState
  | .vBool b => wOk [if b then 1 else 0] st
  | .vI8 v => wOk [toUnsigned 8 v] st
  | .vI16 v =>
    wOk (match V with
      | .BigEndian => beBytes 2 (toUnsigned 16 v)
      | .LittleEndian => leBytes 2 (toUnsigned 16 v)
      | .NetworkEndian => leBytes 2 (toUnsigned 16 v)) st
  | .vI32 v => wOk (i32Bytes V v) st
  | .vI64 v => wOk (i64Bytes V v) st
  | .vF32 bits =>
    wOk (match V with
      | .BigEndian => beBytes 4 bits
      | .LittleEndian => leBytes 4 bits
      | .NetworkEndian => leBytes 4 bits) st
  | .vF64 bits =>
    wOk (match V with
      | .BigEndian => beBytes 8 bits
      | .LittleEndian => leBytes 8 bits
      | .NetworkEndian => leBytes 8 bits) st
  | .vStr s => wOk (strLenBytes V s.length ++ s) st
  | .vBytes b => wOk (countBytes V b.length ++ b) st
  | .vChar _ => wErr "Serialization of `char` is not supported"
  | .vU8 _ => wErr "Serialization of `u8` is not supported"
  | .vU16 _ => wErr "Serialization of `u16` is not supported"
  | .vU32 _ => wErr "Serialization of `u32` is not supported"
  | .vU64 _ => wErr "Serialization of `u64` is not supported"
  | .vI128 _ => wErr "Serialization of `i128` is not supported"
  | .vNone => wErr "Serializing Options is not supported"
  | .vSome _ => wErr "Serializing Options is not supported"
  | .vUnit => wErr "Serializing () is not supported"
  | .vUnitStruct _ => wErr "Serializing unit structs is not supported"
  | .vUnitVariant _ _ => wErr "Serializing unit variants is not supported"
  | .vNewtypeStruct _ _ => wErr "Serializing newtype structs is not supported"
  | .vNewtypeVariant _ _ _ => wErr "Serializing newtype variants is not supported"
  | .vSeq xs => serializeElements V ⟨st.is_initial, xs.length⟩ xs
  | .vSeqNoLen _ => wErr "Dynamically sized sequences is not supported. If you are trying to serialize an iterator, call `Iterator::collect` to create a sequence with known size."
  | .vTuple xs => serializeElements V ⟨st.is_initial, xs.length⟩ xs
  | .vTupleStruct _ _ => wErr "Serializing tuple structs is not supported"
  | .vTupleVariant _ _ _ => wErr "Serializing tuple variants is not supported"
  | .vStructVariant _ _ _ => wErr "Serializing struct variants is not supported"
  | .vMap es =>
    ((if st.is_initial then
        wOk (FieldType.Compound.toByte :: strLenBytes V 0) (⟨false, st.len⟩ : SerState)
      else wOk [] st) : SerResult SerState).andThen fun st1 =>
    (serializeEntries V st1 es).andThen fun st2 =>
    wOk [FieldType.End.toByte] st2
  | .vStruct name fs =>
    ((if st.is_initial then
        wOk (FieldType.Compound.toByte :: (strLenBytes V name.length ++ name))
          (⟨false, st.len⟩ : SerState)
      else wOk [] st) : SerResult SerState).andThen fun st1 =>
    (serializeFields V st1 fs).andThen fun st2 =>
    wOk [FieldType.End.toByte] st2
termination_by v => sizeOf v

/-- `SerializeSeq`/`SerializeTuple::serialize_element` iterated over the
elements (both impls are textually identical), followed by the no-op
`end()`: while `len != 0`, probe the element for its tag, write the count
field, zero `len`, then stream each element's payload. -/
def serializeElements (V : Variant) (st : SerState) : List Value → SerResult SerState
  | [] => wOk [] st
  | x :: xs =>
    if st.len ≠ 0 then
      ((fieldTypeValue x).andThen fun _ =>
        wOk (countBytes V st.len) (⟨st.is_initial, 0⟩ : SerState)).andThen fun st1 =>
      (serializeValue V st1 x).andThen fun st2 =>
      serializeElements V st2 xs
    else
      (serializeValue V st x).andThen fun st1 =>
      serializeElements V st1 xs
termination_by xs => sizeOf xs

/-- `SerializeMap::serialize_entry` iterated over the entries: probe the
value for its tag (the skip flag is discarded), then encode the key and
the value through the ordinary value path. -/
def serializeEntries (V : Variant) (st : SerState) :
    List (Value × Value) → SerResult SerState
  | [] => wOk [] st
  | (k, v) :: es =>
    (fieldTypeValue v).andThen fun _ =>
    (serializeValue V st k).andThen fun st1 =>
    (serializeValue V st1 v).andThen fun st2 =>
    serializeEntries V st2 es
termination_by es => sizeOf es

/-- `SerializeStruct::serialize_field` iterated over the fields: probe the
value; if the probe says skip, write nothing for this field; otherwise
write the length-prefixed field name and the value's payload. -/
def serializeFields (V : Variant) (st : SerState) :
    List (List Nat × Value) → SerResult SerState
  | [] => wOk [] st
  | (key, v) :: fs =>
    (fieldTypeValue v).andThen fun should_skip =>
    if should_skip then serializeFields V st fs
    else
      (wOk (strLenBytes V key.length ++ key) st).andThen fun st1 =>
      (serializeValue V st1 v).andThen fun st2 =>
      serializeFields V st2 fs
termination_by fs => sizeOf fs

end

/-- `to_bytes` (and its variant-specific wrappers): serialize from the
fresh state `is_initial = true, len = 0`, returning the buffer. -/
def toBytes (V : Variant) (v : Value) : Except NbtError (List Nat) :=
  match serializeValue V ⟨true, 0⟩ v with
  | .error (_, e) => .error e
  | .ok (b, _) => .ok b

/-- Payload streaming as the spec describes it for a sequence after its
`(tag, count)` header: each element's payload in order, concatenated with
no per-element tag, name or separator and no terminator. -/
def streamPayloads (V : Variant) (st : SerState) : List Value → SerResult SerState
  | [] => wOk [] st
  | x :: xs => (serializeValue V st x).andThen fun st1 => streamPayloads V st1 xs

/-! ### Basic laws of the byte-writing computation -/

theorem error_andThen {α β : Type} (e : List Nat × NbtError) (f : α → SerResult β) :
    (SerResult.andThen (.error e) f) = .error e := rfl

theorem wOk_andThen {α β : Type} (b : List Nat) (a : α) (f : α → SerResult β) :
    (wOk b a).andThen f =
      match f a with
      | .error (b2, e) => .error (b ++ b2, e)
      | .ok (b2, c) => .ok (b ++ b2, c) := rfl

theorem wOk_nil_andThen {α β : Type} (a : α) (f : α → SerResult β) :
    (wOk [] a).andThen f = f a := by
  cases h : f a with
  | error e =>
    cases e with
    | mk b2 err => simp [wOk, SerResult.andThen, h]
  | ok p =>
    cases p with
    | mk b2 c => simp [wOk, SerResult.andThen, h]

theorem wOk_andThen_congr {α β : Type} (b : List Nat) (a : α) {f g : α → SerResult β}
    (h : f a = g a) : (wOk b a).andThen f = (wOk b a).andThen g := by
  simp [wOk, SerResult.andThen, h]

theorem andThen_eq_ok {α β : Type} {r : SerResult α} {f : α → SerResult β}
    {b : List Nat} {c : β} (h : r.andThen f = .ok (b, c)) :
    ∃ b1 a b2, r = .ok (b1, a) ∧ f a = .ok (b2, c) ∧ b = b1 ++ b2 := by
  cases r with
  | error e => simp [SerResult.andThen] at h
  | ok p =>
    obtain ⟨b1, a⟩ := p
    cases hf : f a with
    | error e =>
      obtain ⟨b2, err⟩ := e
      simp [SerResult.andThen, hf] at h
    | ok q =>
      obtain ⟨b2, c'⟩ := q
      simp only [SerResult.andThen, hf, Except.ok.injEq, Prod.mk.injEq] at h
      exact ⟨b1, a, b2, rfl, by rw [hf, h.2], h.1.symm⟩

/-! ### State invariants

Once the root header is written, `is_initial` stays `false`; and a
serialization step entered with no pending sequence length leaves none
(a nonempty element list also always clears the pending length). -/


theorem serializeInv (V : Variant) :
    (∀ st v b st', serializeValue V st v = .ok (b, st') →
        (st.is_initial = false → st'.is_initial = false) ∧ (st.len = 0 → st'.len = 0)) ∧
    (∀ st fs b st', serializeFields V st fs = .ok (b, st') →
        (st.is_initial = false → st'.is_initial = false) ∧ (st.len = 0 → st'.len = 0)) ∧
    (∀ st es b st', serializeEntries V st es = .ok (b, st') →
        (st.is_initial = false → st'.is_initial = false) ∧ (st.len = 0 → st'.len = 0)) ∧
    (∀ st l b st', serializeElements V st l = .ok (b, st') →
        (st.is_initial = false → st'.is_initial = false) ∧
        ((st.len = 0 ∨ l ≠ []) → st'.len = 0)) := by
  refine serializeValue.mutual_induct V
    (fun st v => ∀ b st', serializeValue V st v = .ok (b, st') →
        (st.is_initial = false → st'.is_initial = false) ∧ (st.len = 0 → st'.len = 0))
    (fun st fs => ∀ b st', serializeFields V st fs = .ok (b, st') →
        (st.is_initial = false → st'.is_initial = false) ∧ (st.len = 0 → st'.len = 0))
    (fun st es => ∀ b st', serializeEntries V st es = .ok (b, st') →
        (st.is_initial = false → st'.is_initial = false) ∧ (st.len = 0 → st'.len = 0))
    (fun st l => ∀ b st', serializeElements V st l = .ok (b, st') →
        (st.is_initial = false → st'.is_initial = false) ∧
        ((st.len = 0 ∨ l ≠ []) → st'.len = 0))
    ?_ ?_ ?_ ?_ ?_ ?_ ?_ ?_ ?_ ?_ ?_ ?_ ?_ ?_ ?_ ?_ ?_ ?_ ?_ ?_ ?_ ?_ ?_ ?_ ?_ ?_ ?_
    ?_ ?_ ?_ ?_ ?_ ?_ ?_ ?_ ?_ ?_
  · intro st x b st' h
    simp only [serializeValue, wOk, Except.ok.injEq, Prod.mk.injEq] at h
    obtain ⟨-, h2⟩ := h
    subst h2
    exact ⟨id, id⟩
  · intro st x b st' h
    simp only [serializeValue, wOk, Except.ok.injEq, Prod.mk.injEq] at h
    obtain ⟨-, h2⟩ := h
    subst h2
    exact ⟨id, id⟩
  · intro st x b st' h
    cases V <;>
      (simp only [serializeValue, wOk, Except.ok.injEq, Prod.mk.injEq] at h
       obtain ⟨-, h2⟩ := h
       subst h2
       exact ⟨id, id⟩)
  · intro st x b st' h
    simp only [serializeValue, wOk, Except.ok.injEq, Prod.mk.injEq] at h
    obtain ⟨-, h2⟩ := h
    subst h2
    exact ⟨id, id⟩
  · intro st x b st' h
    simp only [serializeValue, wOk, Except.ok.injEq, Prod.mk.injEq] at h
    obtain ⟨-, h2⟩ := h
    subst h2
    exact ⟨id, id⟩
  · intro st x b st' h
    cases V <;>
      (simp only [serializeValue, wOk, Except.ok.injEq, Prod.mk.injEq] at h
       obtain ⟨-, h2⟩ := h
       subst h2
       exact ⟨id, id⟩)
  · intro st x b st' h
    cases V <;>
      (simp only [serializeValue, wOk, Except.ok.injEq, Prod.mk.injEq] at h
       obtain ⟨-, h2⟩ := h
       subst h2
       exact ⟨id, id⟩)
  · intro st x b st' h
    simp only [serializeValue, wOk, Except.ok.injEq, Prod.mk.injEq] at h
    obtain ⟨-, h2⟩ := h
    subst h2
    exact ⟨id, id⟩
  · intro st x b st' h
    simp only [serializeValue, wOk, Except.ok.injEq, Prod.mk.injEq] at h
    obtain ⟨-, h2⟩ := h
    subst h2
    exact ⟨id, id⟩
  · intro st x b st' h
    simp [serializeValue, wErr] at h
  · intro st x b st' h
    simp [serializeValue, wErr] at h
  · intro st x b st' h
    simp [serializeValue, wErr] at h
  · intro st x b st' h
    simp [serializeValue, wErr] at h
  · intro st x b st' h
    simp [serializeValue, wErr] at h
  · intro st x b st' h
    simp [serializeValue, wErr] at h
  · intro st b st' h
    simp [serializeValue, wErr] at h
  · intro st w b st' h
    simp [serializeValue, wErr] at h
  · intro st b st' h
    simp [serializeValue, wErr] at h
  · intro st nm b st' h
    simp [serializeValue, wErr] at h
  · intro st nm vr b st' h
    simp [serializeValue, wErr] at h
  · intro st nm w b st' h
    simp [serializeValue, wErr] at h
  · intro st nm vr w b st' h
    simp [serializeValue, wErr] at h
  · intro st xs ih b st' h
    rw [serializeValue] at h
    have hx := ih b st' h
    refine ⟨hx.1, fun hl => hx.2 ?_⟩
    cases xs with
    | nil => exact Or.inl rfl
    | cons y ys => exact Or.inr (by simp)
  · intro st xs b st' h
    simp [serializeValue, wErr] at h
  · intro st xs ih b st' h
    rw [serializeValue] at h
    have hx := ih b st' h
    refine ⟨hx.1, fun hl => hx.2 ?_⟩
    cases xs with
    | nil => exact Or.inl rfl
    | cons y ys => exact Or.inr (by simp)
  · intro st nm xs b st' h
    simp [serializeValue, wErr] at h
  · intro st nm vr xs b st' h
    simp [serializeValue, wErr] at h
  · intro st nm vr fs b st' h
    simp [serializeValue, wErr] at h
  · intro st es ih b st' h
    rw [serializeValue] at h
    cases hinit : st.is_initial with
    | false =>
      rw [hinit, if_neg (by simp)] at h
      obtain ⟨b1, st1, b2, h1, h2, rfl⟩ := andThen_eq_ok h
      obtain ⟨b3, st2, b4, h3, h4, rfl⟩ := andThen_eq_ok h2
      simp only [wOk, Except.ok.injEq, Prod.mk.injEq] at h1 h4
      have he := ih st1 b3 st2 h3
      refine ⟨fun _ => ?_, fun hl => ?_⟩
      · rw [← h4.2]; apply he.1; rw [← h1.2]; exact hinit
      · rw [← h4.2]; apply he.2; rw [← h1.2]; exact hl
    | true =>
      simp only [hinit, if_true] at h
      obtain ⟨b1, st1, b2, h1, h2, rfl⟩ := andThen_eq_ok h
      obtain ⟨b3, st2, b4, h3, h4, rfl⟩ := andThen_eq_ok h2
      simp only [wOk, Except.ok.injEq, Prod.mk.injEq] at h1 h4
      have he := ih st1 b3 st2 h3
      refine ⟨fun _ => ?_, fun hl => ?_⟩
      · rw [← h4.2]; apply he.1; rw [← h1.2]
      · rw [← h4.2]; apply he.2; rw [← h1.2]; exact hl
  · intro st nm fs ih b st' h
    rw [serializeValue] at h
    cases hinit : st.is_initial with
    | false =>
      rw [hinit, if_neg (by simp)] at h
      obtain ⟨b1, st1, b2, h1, h2, rfl⟩ := andThen_eq_ok h
      obtain ⟨b3, st2, b4, h3, h4, rfl⟩ := andThen_eq_ok h2
      simp only [wOk, Except.ok.injEq, Prod.mk.injEq] at h1 h4
      have he := ih st1 b3 st2 h3
      refine ⟨fun _ => ?_, fun hl => ?_⟩
      · rw [← h4.2]; apply he.1; rw [← h1.2]; exact hinit
      · rw [← h4.2]; apply he.2; rw [← h1.2]; exact hl
    | true =>
      simp only [hinit, if_true] at h
      obtain ⟨b1, st1, b2, h1, h2, rfl⟩ := andThen_eq_ok h
      obtain ⟨b3, st2, b4, h3, h4, rfl⟩ := andThen_eq_ok h2
      simp only [wOk, Except.ok.injEq, Prod.mk.injEq] at h1 h4
      have he := ih st1 b3 st2 h3
      refine ⟨fun _ => ?_, fun hl => ?_⟩
      · rw [← h4.2]; apply he.1; rw [← h1.2]
      · rw [← h4.2]; apply he.2; rw [← h1.2]; exact hl
  · intro st b st' h
    simp only [serializeFields, wOk, Except.ok.injEq, Prod.mk.injEq] at h
    obtain ⟨-, h2⟩ := h
    subst h2
    exact ⟨id, id⟩
  · intro st key v fs ihskip ihv ihfs b st' h
    rw [serializeFields] at h
    obtain ⟨b1, sk, b2, h1, h2, rfl⟩ := andThen_eq_ok h
    cases sk with
    | false =>
      rw [if_neg (by simp)] at h2
      obtain ⟨b3, st1, b4, h3, h4, rfl⟩ := andThen_eq_ok h2
      simp only [wOk, Except.ok.injEq, Prod.mk.injEq] at h3
      obtain ⟨b5, st2, b6, h5, h6, rfl⟩ := andThen_eq_ok h4
      have hv := ihv st1 b5 st2 h5
      have he := ihfs st2 b6 st' h6
      refine ⟨fun hf => he.1 (hv.1 ?_), fun hl => he.2 (hv.2 ?_)⟩
      · rw [← h3.2]; exact hf
      · rw [← h3.2]; exact hl
    | true =>
      rw [if_pos rfl] at h2
      exact ihskip b2 st' h2
  · intro st b st' h
    simp only [serializeEntries, wOk, Except.ok.injEq, Prod.mk.injEq] at h
    obtain ⟨-, h2⟩ := h
    subst h2
    exact ⟨id, id⟩
  · intro st k v es ihk ihv ihes b st' h
    rw [serializeEntries] at h
    obtain ⟨b1, sk, b2, h1, h2, rfl⟩ := andThen_eq_ok h
    obtain ⟨b3, st1, b4, h3, h4, rfl⟩ := andThen_eq_ok h2
    obtain ⟨b5, st2, b6, h5, h6, rfl⟩ := andThen_eq_ok h4
    have hk := ihk b3 st1 h3
    have hv := ihv st1 b5 st2 h5
    have he := ihes st2 b6 st' h6
    exact ⟨fun hf => he.1 (hv.1 (hk.1 hf)), fun hl => he.2 (hv.2 (hk.2 hl))⟩
  · intro st b st' h
    simp only [serializeElements, wOk, Except.ok.injEq, Prod.mk.injEq] at h
    obtain ⟨-, h2⟩ := h
    subst h2
    refine ⟨id, fun hl => ?_⟩
    rcases hl with hl | hl
    · exact hl
    · exact absurd rfl hl
  · intro st x xs hne ihx ihxs b st' h
    rw [serializeElements] at h
    rw [if_pos hne] at h
    obtain ⟨b1, st1, b2, h1, h2, rfl⟩ := andThen_eq_ok h
    obtain ⟨b3, sk, b4, h3, h4, rfl⟩ := andThen_eq_ok h1
    simp only [wOk, Except.ok.injEq, Prod.mk.injEq] at h4
    obtain ⟨b5, st2, b6, h5, h6, rfl⟩ := andThen_eq_ok h2
    have hv := ihx st1 b5 st2 h5
    have he := ihxs st2 b6 st' h6
    refine ⟨fun hf => ?_, fun _ => ?_⟩
    · apply he.1; apply hv.1; rw [← h4.2]; exact hf
    · apply he.2; apply Or.inl; apply hv.2; rw [← h4.2]
  · intro st x xs hz ihx ihxs b st' h
    rw [serializeElements] at h
    rw [if_neg hz] at h
    obtain ⟨b1, st1, b2, h1, h2, rfl⟩ := andThen_eq_ok h
    have hlen : st.len = 0 := by omega
    have hv := ihx b1 st1 h1
    have he := ihxs st1 b2 st' h2
    exact ⟨fun hf => he.1 (hv.1 hf), fun _ => he.2 (Or.inl (hv.2 hlen))⟩

/-- With no pending sequence length, the element loop is exactly the plain
payload streamer: no tag, count, separator or terminator is added. -/
theorem serializeElements_stream (V : Variant) (l : List Value) :
    ∀ st : SerState, st.len = 0 → serializeElements V st l = streamPayloads V st l := by
  induction l with
  | nil => intro st h0; rw [serializeElements, streamPayloads]
  | cons x xs ih =>
    intro st h0
    rw [serializeElements, streamPayloads, if_neg (by omega)]
    cases hv : serializeValue V st x with
    | error e => simp [SerResult.andThen, hv]
    | ok p =>
      obtain ⟨b1, st1⟩ := p
      have h1 : st1.len = 0 := ((serializeInv V).1 st x b1 st1 hv).2 h0
      simp only [SerResult.andThen, hv, ih st1 h1]

/-- Skipped and removed optional fields coincide at the field-loop level. -/
theorem serializeFields_none_skip (V : Variant) (fname : List Nat)
    (post : List (List Nat × Value)) :
    ∀ (st : SerState) (pre : List (List Nat × Value)),
      serializeFields V st (pre ++ (fname, Value.vNone) :: post) =
      serializeFields V st (pre ++ post) := by
  intro st pre
  induction pre generalizing st with
  | nil =>
    rw [List.nil_append, List.nil_append, serializeFields]
    cases hp : serializeFields V st post with
    | error e =>
      obtain ⟨b2, err⟩ := e
      simp [fieldTypeValue, wOk, SerResult.andThen, hp]
    | ok p =>
      obtain ⟨b2, st2⟩ := p
      simp [fieldTypeValue, wOk, SerResult.andThen, hp]
  | cons f pre ih =>
    obtain ⟨key, v⟩ := f
    rw [List.cons_append, List.cons_append, serializeFields, serializeFields]
    cases hf : fieldTypeValue v with
    | error e => rw [SerResult.andThen, SerResult.andThen]
    | ok p =>
      obtain ⟨b1, sk⟩ := p
      rw [SerResult.andThen, SerResult.andThen]
      cases sk with
      | true => rw [if_pos rfl, if_pos rfl, ih st]
      | false =>
        rw [if_neg (by simp), if_neg (by simp)]
        rw [wOk_andThen, wOk_andThen]
        cases hv : serializeValue V st v with
        | error e => rw [SerResult.andThen, SerResult.andThen]
        | ok q =>
          obtain ⟨b3, st2⟩ := q
          rw [SerResult.andThen, SerResult.andThen, ih st2]

theorem andThen_congr {α β : Type} {r : SerResult α} {f g : α → SerResult β}
    (h : ∀ a, f a = g a) : r.andThen f = r.andThen g := by
  cases r with
  | error e => rfl
  | ok p =>
    obtain ⟨b, a⟩ := p
    rw [SerResult.andThen, SerResult.andThen, h a]

/-! ### The claims -/

/-- Claim C1: the claim says a struct field holding a present optional
wrapping a string encodes exactly like a plain string field and the encode
succeeds.  The code does not: the probe writes the `String` tag and the
field loop writes the field name, but the primary encoder's
`serialize_some` then fails with `Unsupported`.  This theorem evaluates
the encoder at the failing input — the struct `{ "b": Some("a") }` under
the big-endian variant — showing the tag and name bytes already emitted
and the error. -/
theorem claim_c1_present_optional_string_field :
    serializeValue .BigEndian ⟨false, 0⟩
        (.vStruct [] [([98], .vSome (.vStr [97]))]) =
      .error ([FieldType.String.toByte, 0, 1, 98],
        .Unsupported "Serializing Options is not supported") := by
  simp [serializeValue, serializeFields, fieldTypeValue, wOk, wErr,
    SerResult.andThen, strLenBytes, beBytes, leBytes, FieldType.toByte]

/-- Claim C3: a struct field holding an absent optional is fully omitted —
the encoded output equals, byte for byte, the encoding of the same struct
with the field removed entirely. -/
theorem claim_c3_absent_optional_field_omitted (V : Variant) (st : SerState)
    (sname fname : List Nat) (pre post : List (List Nat × Value)) :
    serializeValue V st (.vStruct sname (pre ++ (fname, Value.vNone) :: post)) =
    serializeValue V st (.vStruct sname (pre ++ post)) := by
  rw [serializeValue, serializeValue]
  apply andThen_congr
  intro st1
  rw [serializeFields_none_skip]

/-- Claim C9: `u8` is rejected with the `Unsupported` error kind by the
primary encoder, by the probe encoder, and at the public entry point,
even though only unsigned widths of 16 bits and more are named by the
spec's rejected-shape list. -/
theorem claim_c9_u8_rejected (V : Variant) (st : SerState) (n : Nat) :
    serializeValue V st (.vU8 n) =
      .error ([], .Unsupported "Serialization of `u8` is not supported")
    ∧ fieldTypeValue (.vU8 n) =
      .error ([], .Unsupported "Serialization of `u8` is not supported")
    ∧ toBytes V (.vU8 n) =
      .error (.Unsupported "Serialization of `u8` is not supported") := by
  refine ⟨?_, ?_, ?_⟩ <;>
    simp [serializeValue, fieldTypeValue, toBytes, wErr]

/-- Claim C2: a nonempty sequence or tuple of declared length `n` encodes
as: the first element's probed tag byte, then `n` as the variant's count
field (written before any payload, with the pending length reset to `0`),
then the plain concatenation of the element payloads with no per-element
tag, name or separator and no terminator; an empty sequence or tuple
contributes zero bytes. -/
theorem claim_c2_sequence_header (V : Variant) (st : SerState) (x : Value)
    (xs : List Value) :
    (serializeValue V st (.vSeq (x :: xs)) =
      ((fieldTypeValue x).andThen fun _ =>
        wOk (countBytes V (xs.length + 1)) (⟨st.is_initial, 0⟩ : SerState)).andThen
        fun st1 => streamPayloads V st1 (x :: xs))
    ∧ (serializeValue V st (.vTuple (x :: xs)) =
      ((fieldTypeValue x).andThen fun _ =>
        wOk (countBytes V (xs.length + 1)) (⟨st.is_initial, 0⟩ : SerState)).andThen
        fun st1 => streamPayloads V st1 (x :: xs))
    ∧ serializeValue V st (.vSeq []) = .ok ([], ⟨st.is_initial, 0⟩)
    ∧ serializeValue V st (.vTuple []) = .ok ([], ⟨st.is_initial, 0⟩) := by
  have key : serializeElements V ⟨st.is_initial, xs.length + 1⟩ (x :: xs) =
      ((fieldTypeValue x).andThen fun _ =>
        wOk (countBytes V (xs.length + 1)) (⟨st.is_initial, 0⟩ : SerState)).andThen
        fun st1 => streamPayloads V st1 (x :: xs) := by
    rw [serializeElements, if_pos (by simp)]
    cases hf : fieldTypeValue x with
    | error e => simp [SerResult.andThen, hf]
    | ok p =>
      obtain ⟨tb, sk⟩ := p
      cases hv : serializeValue V ⟨st.is_initial, 0⟩ x with
      | error e2 => simp [SerResult.andThen, hf, hv, wOk, streamPayloads]
      | ok q =>
        obtain ⟨b2, st2⟩ := q
        have h2 : st2.len = 0 := ((serializeInv V).1 _ x _ _ hv).2 rfl
        simp [SerResult.andThen, hf, hv, wOk, streamPayloads,
          serializeElements_stream V xs st2 h2]
  refine ⟨?_, ?_, ?_, ?_⟩
  · rw [serializeValue]; exact key
  · rw [serializeValue]; exact key
  · rw [serializeValue, serializeElements]; rfl
  · rw [serializeValue, serializeElements]; rfl

/-- Claim C4: every successfully encoded map or struct, at any state (so
at any nesting depth, root included), produces a byte string ending in the
`End` tag byte, written exactly once at close — a zero-entry compound in a
nested (non-initial) position encodes as exactly the single `End` byte. -/
theorem claim_c4_compound_end_byte (V : Variant) (st : SerState) :
    (∀ es b st', serializeValue V st (.vMap es) = .ok (b, st') →
        ∃ p, b = p ++ [FieldType.End.toByte])
    ∧ (∀ nm fs b st', serializeValue V st (.vStruct nm fs) = .ok (b, st') →
        ∃ p, b = p ++ [FieldType.End.toByte])
    ∧ (st.is_initial = false →
        serializeValue V st (.vMap []) = .ok ([FieldType.End.toByte], st)
        ∧ ∀ nm, serializeValue V st (.vStruct nm []) =
            .ok ([FieldType.End.toByte], st)) := by
  refine ⟨?_, ?_, ?_⟩
  · intro es b st' h
    rw [serializeValue] at h
    obtain ⟨b1, st1, b2, h1, h2, rfl⟩ := andThen_eq_ok h
    obtain ⟨b3, st2, b4, h3, h4, rfl⟩ := andThen_eq_ok h2
    simp only [wOk, Except.ok.injEq, Prod.mk.injEq] at h4
    refine ⟨b1 ++ b3, ?_⟩
    rw [← h4.1, List.append_assoc]
  · intro nm fs b st' h
    rw [serializeValue] at h
    obtain ⟨b1, st1, b2, h1, h2, rfl⟩ := andThen_eq_ok h
    obtain ⟨b3, st2, b4, h3, h4, rfl⟩ := andThen_eq_ok h2
    simp only [wOk, Except.ok.injEq, Prod.mk.injEq] at h4
    refine ⟨b1 ++ b3, ?_⟩
    rw [← h4.1, List.append_assoc]
  · intro hf
    refine ⟨?_, fun nm => ?_⟩ <;>
      simp [serializeValue, serializeEntries, serializeFields, hf, wOk,
        SerResult.andThen]

theorem claim_c4_witness :
    (∃ p, ([10, 0, 0, 0] : List Nat) = p ++ [FieldType.End.toByte])
    ∧ serializeValue .BigEndian ⟨false, 0⟩ (.vMap []) =
        .ok ([FieldType.End.toByte], ⟨false, 0⟩) :=
  ⟨(claim_c4_compound_end_byte .BigEndian ⟨true, 0⟩).1 [] [10, 0, 0, 0] ⟨false, 0⟩
    (by simp [serializeValue, serializeEntries, wOk, SerResult.andThen,
      strLenBytes, beBytes, leBytes, FieldType.toByte]),
   ((claim_c4_compound_end_byte .BigEndian ⟨false, 0⟩).2.2 rfl).1⟩

/-- Claim C5: from the initial state the very first map or struct writes
the single root header — the `Compound` tag byte and a leaf-string name,
the struct's own name for a struct root and the empty string for a map
root — and then behaves exactly as from the non-initial state; from the
non-initial state a map or struct writes no header at all (entries or
fields, then the `End` byte); and `is_initial` never returns to `true`,
so no later compound can write a second header. -/
theorem claim_c5_root_header (V : Variant) (L : Nat) :
    (∀ es, serializeValue V ⟨true, L⟩ (.vMap es) =
        (wOk (FieldType.Compound.toByte :: strLenBytes V 0)
          (⟨false, L⟩ : SerState)).andThen
          fun s1 => serializeValue V s1 (.vMap es))
    ∧ (∀ nm fs, serializeValue V ⟨true, L⟩ (.vStruct nm fs) =
        (wOk (FieldType.Compound.toByte :: (strLenBytes V nm.length ++ nm))
          (⟨false, L⟩ : SerState)).andThen
          fun s1 => serializeValue V s1 (.vStruct nm fs))
    ∧ (∀ es, serializeValue V ⟨false, L⟩ (.vMap es) =
        (serializeEntries V ⟨false, L⟩ es).andThen
          fun s2 => wOk [FieldType.End.toByte] s2)
    ∧ (∀ nm fs, serializeValue V ⟨false, L⟩ (.vStruct nm fs) =
        (serializeFields V ⟨false, L⟩ fs).andThen
          fun s2 => wOk [FieldType.End.toByte] s2)
    ∧ (∀ st v b st', serializeValue V st v = .ok (b, st') →
        st.is_initial = false → st'.is_initial = false) := by
  refine ⟨?_, ?_, ?_, ?_, ?_⟩
  · intro es
    rw [serializeValue, if_pos rfl]
    apply wOk_andThen_congr
    rw [serializeValue, if_neg (by simp), wOk_nil_andThen]
  · intro nm fs
    rw [serializeValue, if_pos rfl]
    apply wOk_andThen_congr
    rw [serializeValue, if_neg (by simp), wOk_nil_andThen]
  · intro es
    rw [serializeValue, if_neg (by simp), wOk_nil_andThen]
  · intro nm fs
    rw [serializeValue, if_neg (by simp), wOk_nil_andThen]
  · intro st v b st' h hf
    exact ((serializeInv V).1 st v b st' h).1 hf

theorem claim_c5_witness : (⟨false, 0⟩ : SerState).is_initial = false :=
  (claim_c5_root_header .BigEndian 0).2.2.2.2 ⟨false, 0⟩ (.vBool true) [1]
    ⟨false, 0⟩ (by simp [serializeValue, wOk]) rfl

theorem andThen_assoc {α β γ : Type} (r : SerResult α) (f : α → SerResult β)
    (g : β → SerResult γ) :
    (r.andThen f).andThen g = r.andThen fun a => (f a).andThen g := by
  cases r with
  | error e => rfl
  | ok p =>
    obtain ⟨b, a⟩ := p
    cases hf : f a with
    | error e =>
      obtain ⟨b2, err⟩ := e
      simp [SerResult.andThen, hf]
    | ok q =>
      obtain ⟨b2, c⟩ := q
      cases hg : g c with
      | error e2 =>
        obtain ⟨b3, err⟩ := e2
        simp [SerResult.andThen, hf, hg, List.append_assoc]
      | ok r2 =>
        obtain ⟨b3, d⟩ := r2
        simp [SerResult.andThen, hf, hg, List.append_assoc]

/-- Claim C6: every rejected shape fails with the `Unsupported` error
kind — unsigned integers of 16 bits and more, 128-bit integers, a single
character, bare unit, unit structs, newtype structs, tuple structs, all
four enum-variant shapes, optional values outside struct fields (bare,
as a sequence element, as a map value), and sequences of unknown length —
and for every such bare shape the error carries no written bytes, so a
top-level call emits nothing. -/
theorem claim_c6_unsupported_shapes (V : Variant) (st : SerState) (L : Nat) :
    (∀ n, serializeValue V st (.vU16 n) =
        .error ([], .Unsupported "Serialization of `u16` is not supported"))
    ∧ (∀ n, serializeValue V st (.vU32 n) =
        .error ([], .Unsupported "Serialization of `u32` is not supported"))
    ∧ (∀ n, serializeValue V st (.vU64 n) =
        .error ([], .Unsupported "Serialization of `u64` is not supported"))
    ∧ (∀ i, serializeValue V st (.vI128 i) =
        .error ([], .Unsupported "Serialization of `i128` is not supported"))
    ∧ (∀ c, serializeValue V st (.vChar c) =
        .error ([], .Unsupported "Serialization of `char` is not supported"))
    ∧ serializeValue V st .vUnit =
        .error ([], .Unsupported "Serializing () is not supported")
    ∧ (∀ nm, serializeValue V st (.vUnitStruct nm) =
        .error ([], .Unsupported "Serializing unit structs is not supported"))
    ∧ (∀ nm w, serializeValue V st (.vNewtypeStruct nm w) =
        .error ([], .Unsupported "Serializing newtype structs is not supported"))
    ∧ (∀ nm xs, serializeValue V st (.vTupleStruct nm xs) =
        .error ([], .Unsupported "Serializing tuple structs is not supported"))
    ∧ (∀ nm vr, serializeValue V st (.vUnitVariant nm vr) =
        .error ([], .Unsupported "Serializing unit variants is not supported"))
    ∧ (∀ nm vr w, serializeValue V st (.vNewtypeVariant nm vr w) =
        .error ([], .Unsupported "Serializing newtype variants is not supported"))
    ∧ (∀ nm vr xs, serializeValue V st (.vTupleVariant nm vr xs) =
        .error ([], .Unsupported "Serializing tuple variants is not supported"))
    ∧ (∀ nm vr fs, serializeValue V st (.vStructVariant nm vr fs) =
        .error ([], .Unsupported "Serializing struct variants is not supported"))
    ∧ serializeValue V st .vNone =
        .error ([], .Unsupported "Serializing Options is not supported")
    ∧ (∀ w, serializeValue V st (.vSome w) =
        .error ([], .Unsupported "Serializing Options is not supported"))
    ∧ (∀ xs, serializeValue V st (.vSeqNoLen xs) =
        .error ([], .Unsupported "Dynamically sized sequences is not supported. If you are trying to serialize an iterator, call `Iterator::collect` to create a sequence with known size."))
    ∧ (∀ xs, serializeValue V st (.vSeq (Value.vNone :: xs)) =
        .error (countBytes V (xs.length + 1),
          .Unsupported "Serializing Options is not supported"))
    ∧ (∀ es, serializeValue V ⟨false, L⟩ (.vMap ((Value.vStr [], Value.vNone) :: es)) =
        .error (strLenBytes V 0,
          .Unsupported "Serializing Options is not supported")) := by
  refine ⟨fun n => ?_, fun n => ?_, fun n => ?_, fun i => ?_, fun c => ?_, ?_,
    fun nm => ?_, fun nm w => ?_, fun nm xs => ?_, fun nm vr => ?_,
    fun nm vr w => ?_, fun nm vr xs => ?_, fun nm vr fs => ?_, ?_, fun w => ?_,
    fun xs => ?_, fun xs => ?_, fun es => ?_⟩ <;>
    simp [serializeValue, serializeElements, serializeEntries, fieldTypeValue,
      wOk, wErr, SerResult.andThen]

/-- Claim C7: 32/64-bit signed integers, string lengths, and byte-array
and list counts follow the active variant's rule (fixed-width big-endian,
fixed little-endian, or varints — ZigZag-signed for `i32`/`i64` and for
byte-array/list counts, unsigned for string lengths), and the
sequence/tuple path writes exactly that per-variant count field; bool and
`i8` payloads are identical for all three variants and `i16`/`f32`/`f64`
payloads agree between the two little-endian variants and are the byte
reversal under the big-endian one. -/
theorem claim_c7_variant_scalar_rules (st : SerState) :
    (∀ V b, serializeValue V st (.vBool b) = .ok ([if b then 1 else 0], st))
    ∧ (∀ V v, serializeValue V st (.vI8 v) = .ok ([toUnsigned 8 v], st))
    ∧ (∀ v, serializeValue .LittleEndian st (.vI16 v) =
          .ok (leBytes 2 (toUnsigned 16 v), st)
        ∧ serializeValue .NetworkEndian st (.vI16 v) =
          serializeValue .LittleEndian st (.vI16 v)
        ∧ serializeValue .BigEndian st (.vI16 v) =
          .ok ((leBytes 2 (toUnsigned 16 v)).reverse, st))
    ∧ (∀ bits, serializeValue .LittleEndian st (.vF32 bits) =
          .ok (leBytes 4 bits, st)
        ∧ serializeValue .NetworkEndian st (.vF32 bits) =
          serializeValue .LittleEndian st (.vF32 bits)
        ∧ serializeValue .BigEndian st (.vF32 bits) =
          .ok ((leBytes 4 bits).reverse, st))
    ∧ (∀ bits, serializeValue .LittleEndian st (.vF64 bits) =
          .ok (leBytes 8 bits, st)
        ∧ serializeValue .NetworkEndian st (.vF64 bits) =
          serializeValue .LittleEndian st (.vF64 bits)
        ∧ serializeValue .BigEndian st (.vF64 bits) =
          .ok ((leBytes 8 bits).reverse, st))
    ∧ (∀ v, serializeValue .BigEndian st (.vI32 v) =
          .ok (beBytes 4 (toUnsigned 32 v), st)
        ∧ serializeValue .LittleEndian st (.vI32 v) =
          .ok (leBytes 4 (toUnsigned 32 v), st)
        ∧ serializeValue .NetworkEndian st (.vI32 v) =
          .ok (uvarint (zigzag v), st))
    ∧ (∀ v, serializeValue .BigEndian st (.vI64 v) =
          .ok (beBytes 8 (toUnsigned 64 v), st)
        ∧ serializeValue .LittleEndian st (.vI64 v) =
          .ok (leBytes 8 (toUnsigned 64 v), st)
        ∧ serializeValue .NetworkEndian st (.vI64 v) =
          .ok (uvarint (zigzag v), st))
    ∧ (∀ s, serializeValue .BigEndian st (.vStr s) =
          .ok (beBytes 2 (s.length % 2 ^ 16) ++ s, st)
        ∧ serializeValue .LittleEndian st (.vStr s) =
          .ok (leBytes 2 (s.length % 2 ^ 16) ++ s, st)
        ∧ serializeValue .NetworkEndian st (.vStr s) =
          .ok (uvarint (s.length % 2 ^ 32) ++ s, st))
    ∧ (∀ bl, serializeValue .BigEndian st (.vBytes bl) =
          .ok (beBytes 4 (toUnsigned 32 (usizeAsI32 bl.length)) ++ bl, st)
        ∧ serializeValue .LittleEndian st (.vBytes bl) =
          .ok (leBytes 4 (toUnsigned 32 (usizeAsI32 bl.length)) ++ bl, st)
        ∧ serializeValue .NetworkEndian st (.vBytes bl) =
          .ok (uvarint (zigzag (usizeAsI32 bl.length)) ++ bl, st))
    ∧ (∀ n, countBytes .BigEndian n = beBytes 4 (toUnsigned 32 (usizeAsI32 n))
        ∧ countBytes .LittleEndian n = leBytes 4 (toUnsigned 32 (usizeAsI32 n))
        ∧ countBytes .NetworkEndian n = uvarint (zigzag (usizeAsI32 n)))
    ∧ (∀ (V : Variant) (x : Value) (xs : List Value),
        (serializeValue V st (.vSeq (x :: xs)) =
          ((fieldTypeValue x).andThen fun _ =>
            wOk (countBytes V (xs.length + 1)) (⟨st.is_initial, 0⟩ : SerState)).andThen
            fun st1 => (serializeValue V st1 x).andThen
            fun st2 => serializeElements V st2 xs)
        ∧ serializeValue V st (.vTuple (x :: xs)) =
          ((fieldTypeValue x).andThen fun _ =>
            wOk (countBytes V (xs.length + 1)) (⟨st.is_initial, 0⟩ : SerState)).andThen
            fun st1 => (serializeValue V st1 x).andThen
            fun st2 => serializeElements V st2 xs) := by
  have hseq : ∀ (V : Variant) (x : Value) (xs : List Value),
      serializeElements V ⟨st.is_initial, xs.length + 1⟩ (x :: xs) =
        ((fieldTypeValue x).andThen fun _ =>
          wOk (countBytes V (xs.length + 1)) (⟨st.is_initial, 0⟩ : SerState)).andThen
          fun st1 => (serializeValue V st1 x).andThen
          fun st2 => serializeElements V st2 xs := by
    intro V x xs
    rw [serializeElements, if_pos (by simp)]
  refine ⟨fun V b => ?_, fun V v => ?_, fun v => ⟨?_, ?_, ?_⟩,
    fun bits => ⟨?_, ?_, ?_⟩, fun bits => ⟨?_, ?_, ?_⟩, fun v => ⟨?_, ?_, ?_⟩,
    fun v => ⟨?_, ?_, ?_⟩, fun s => ⟨?_, ?_, ?_⟩, fun bl => ⟨?_, ?_, ?_⟩,
    fun n => ⟨?_, ?_, ?_⟩,
    fun V x xs => ⟨by rw [serializeValue]; exact hseq V x xs,
      by rw [serializeValue]; exact hseq V x xs⟩⟩ <;>
    first
    | (cases V <;>
        simp [serializeValue, wOk, i32Bytes, i64Bytes, strLenBytes, countBytes,
          beBytes, ivarint])
    | simp [serializeValue, wOk, i32Bytes, i64Bytes, strLenBytes, countBytes,
        beBytes, ivarint]

/-- Claim C8: a map entry is encoded as: probe the value and write its tag
byte, then the key through the ordinary value path, then the value's
payload (then the remaining entries and the closing `End`).  Keys are not
type-constrained: a 32-bit-integer key encodes with no error, yielding a
malformed document (the key payload carries no string frame). -/
theorem claim_c8_map_entry_layout (V : Variant) (L : Nat) :
    (∀ k v es, serializeValue V ⟨false, L⟩ (.vMap ((k, v) :: es)) =
        (fieldTypeValue v).andThen fun _ =>
        (serializeValue V ⟨false, L⟩ k).andThen fun st1 =>
        (serializeValue V st1 v).andThen fun st2 =>
        (serializeEntries V st2 es).andThen fun st3 =>
        wOk [FieldType.End.toByte] st3)
    ∧ (∀ n m, serializeValue V ⟨false, L⟩ (.vMap [(.vI32 n, .vI8 m)]) =
        .ok (FieldType.Byte.toByte ::
          (i32Bytes V n ++ [toUnsigned 8 m, FieldType.End.toByte]),
          ⟨false, L⟩)) := by
  constructor
  · intro k v es
    rw [serializeValue, if_neg (by simp), wOk_nil_andThen, serializeEntries]
    simp only [andThen_assoc]
  · intro n m
    simp [serializeValue, serializeEntries, fieldTypeValue, wOk,
      SerResult.andThen]

/-- Claim C10: length fields are unchecked narrowing casts — the string
length prefix under the fixed-width variants is the byte length modulo
`2^16`, a byte blob's count is its length cast to a signed 32-bit integer
(`usizeAsI32`) and written through the ordinary `i32` writer, and a
sequence's count field is the declared length cast the same way; every
equation holds for all lengths and always succeeds, so out-of-range
lengths wrap silently instead of being rejected. -/
theorem claim_c10_unchecked_length_casts (st : SerState) :
    (∀ s, serializeValue .BigEndian st (.vStr s) =
          .ok (beBytes 2 (s.length % 2 ^ 16) ++ s, st)
        ∧ serializeValue .LittleEndian st (.vStr s) =
          .ok (leBytes 2 (s.length % 2 ^ 16) ++ s, st))
    ∧ (∀ V bl, serializeValue V st (.vBytes bl) =
        .ok (i32Bytes V (usizeAsI32 bl.length) ++ bl, st))
    ∧ (∀ V n, countBytes V n = i32Bytes V (usizeAsI32 n))
    ∧ (∀ V x xs, serializeValue V st (.vSeq (x :: xs)) =
        ((fieldTypeValue x).andThen fun _ =>
          wOk (i32Bytes V (usizeAsI32 (xs.length + 1)))
            (⟨st.is_initial, 0⟩ : SerState)).andThen
          fun st1 => (serializeValue V st1 x).andThen
          fun st2 => serializeElements V st2 xs) := by
  have hc : ∀ V n, countBytes V n = i32Bytes V (usizeAsI32 n) := by
    intro V n
    cases V <;> simp [countBytes, i32Bytes, ivarint]
  refine ⟨fun s => ⟨?_, ?_⟩, fun V bl => ?_, hc, fun V x xs => ?_⟩
  · simp [serializeValue, wOk, strLenBytes, beBytes]
  · simp [serializeValue, wOk, strLenBytes]
  · rw [serializeValue, hc]; rfl
  · rw [serializeValue, serializeElements, if_pos (by simp)]
    simp only [hc, List.length_cons]

end Nbtx
